import Mathlib

/-!
# Verification of the Analyze spatial-map (.obj) parser

A shallow embedding of `objparser.py` (class `AnalyzeSpatialMap` and its
helper class `SpatialObject`), together with theorems settling the spec's
claims about it.

Modelling conventions:
* A byte stream is a `List Nat`; a genuine byte stream has all entries ≤ 255,
  but — exactly like the Python code — no definition below checks this.
* Python's `f.read(n)` returns *up to* `n` bytes: `readBytes n s = (s.take n,
  s.drop n)`.  `int.from_bytes(b, byteorder:big, signed:False)` is the
  big-endian fold `fromBytesBE`; on a short (even empty) read it silently
  yields a small number, just as in Python.
* Failure is modelled with `Except DecodeError`.  The constructors follow the
  spec's error taxonomy (§7) and are placed exactly at the program points where
  the Python code raises: `InvalidEncodingError` at `bytes.decode(utf-8)`,
  `StructError` at `struct.unpack` on a short read, `MalformedRLEStreamError`
  at `np.frombuffer(...).reshape((-1, 2))` on an odd-length region,
  `RunOverflowError` at the numpy broadcast failure of
  `temp_slice[pixel_num:pixel_num+mult] = np.repeat(num, mult)` when the run
  overshoots the slice, `EndOfStreamError` at `maps_rle[i]` when the pair index
  runs off the table, and `IndexOutOfRangeError` at `self.vols[idx]`.
* A decoded numpy volume `np.zeros((height, width, depth))`, filled via
  `temp_vol[:, :, slice_num] = temp_slice.reshape(height, width)`, is
  represented slice-major: a `Volume` is the list of its `depth` slices, each
  slice the list of its `height` rows, each row a list of `width` cells.
  So `vol_numpy[r, c, s] = (vols s) r c`, and shape `(height, width, depth)`
  means: `depth` slices, each of `height` rows of `width` cells.
* `from_file` models `AnalyzeSpatialMap(file=...)`: a fresh instance
  (`__init__` defaults, in particular `n_vols = 1`) followed by `from_file`
  on the stream's bytes.  The method mutates `self`; the embedding returns
  the resulting object.  `get_data` only reads `self.vols`, so it is a pure
  function of the map.
-/

namespace ObjParser

/-- Python `int.from_bytes(l, byteorder:big, signed:False)`:
big-endian base-256 value of a byte list (0 on the empty list). -/
def fromBytesBE (l : List Nat) : Nat :=
  l.foldl (fun a b => 256 * a + b) 0

/-- Python `f.read(n)` on a forward-only stream: up to `n` bytes, and the rest. -/
def readBytes (n : Nat) (s : List Nat) : List Nat × List Nat :=
  (s.take n, s.drop n)

/-- Read `n` bytes and interpret them big-endian
(`int.from_bytes(f.read(n), byteorder:big)`). -/
def readU (n : Nat) (s : List Nat) : Nat × List Nat :=
  (fromBytesBE (s.take n), s.drop n)

/-- The four big-endian bytes of a value below 2^32 (used to build concrete
input streams for the theorems; not part of the parser). -/
def be4 (n : Nat) : List Nat :=
  [n / 16777216 % 256, n / 65536 % 256, n / 256 % 256, n % 256]

/-- The failure modes of the decoder, named after the spec's error taxonomy
(§7); each constructor corresponds to one raise site of the Python code, as
listed in the module docstring. -/
inductive DecodeError where
  | InvalidEncodingError
  | StructError
  | MalformedRLEStreamError
  | RunOverflowError
  | EndOfStreamError
  | IndexOutOfRangeError
deriving DecidableEq

/-- The shape of a Python value produced by `struct.unpack`: either a bare
float scalar or a tuple of floats.  A 32-bit float is carried as its four raw
bytes (no claim depends on its IEEE-754 value, only on the value's shape and
on which bytes it was decoded from). -/
inductive PyVal where
  | float (bits : List Nat)
  | floatTuple (elems : List (List Nat))
deriving DecidableEq

/-- Continuation byte `10xxxxxx` of a UTF-8 sequence. -/
def isCont (c : Nat) : Bool :=
  128 ≤ c && c ≤ 191

/-- UTF-8 validity of a byte sequence, as enforced by Python's
`bytes.decode(utf-8)` (RFC 3629: no overlong forms, no surrogates,
maximum U+10FFFF). -/
def validUtf8 : List Nat → Bool
  | [] => true
  | b :: rest =>
    if b ≤ 127 then validUtf8 rest
    else
      match rest with
      | [] => false
      | c1 :: r1 =>
        if 194 ≤ b && b ≤ 223 then isCont c1 && validUtf8 r1
        else
          match r1 with
          | [] => false
          | c2 :: r2 =>
            if b = 224 then (160 ≤ c1 && c1 ≤ 191) && isCont c2 && validUtf8 r2
            else if (225 ≤ b && b ≤ 236) || b = 238 || b = 239 then
              isCont c1 && isCont c2 && validUtf8 r2
            else if b = 237 then (128 ≤ c1 && c1 ≤ 159) && isCont c2 && validUtf8 r2
            else
              match r2 with
              | [] => false
              | c3 :: r3 =>
                if b = 240 then
                  (144 ≤ c1 && c1 ≤ 191) && isCont c2 && isCont c3 && validUtf8 r3
                else if 241 ≤ b && b ≤ 243 then
                  isCont c1 && isCont c2 && isCont c3 && validUtf8 r3
                else if b = 244 then
                  (128 ≤ c1 && c1 ≤ 143) && isCont c2 && isCont c3 && validUtf8 r3
                else false

/-- `SpatialObject`: one per-object metadata record, field for field as in the
Python class.  `name` holds the bytes before the first null of the 32-byte
name slot (`_read_nts`); all integer fields are the big-endian unsigned reads
the code performs; `opacity` and `blendfactor` hold whatever Python value
`struct.unpack('f', ...)` produces. -/
structure SpatialObject where
  name : List Nat
  display_flag : Nat
  copy_flag : Nat
  mirror : Nat
  status : Nat
  n_used : Nat
  shades : Nat
  s_red : Nat
  s_green : Nat
  s_blue : Nat
  e_red : Nat
  e_green : Nat
  e_blue : Nat
  x_rot : Nat
  y_rot : Nat
  z_rot : Nat
  x_shift : Nat
  y_shift : Nat
  z_shift : Nat
  x_center : Nat
  y_center : Nat
  z_center : Nat
  i_xrot : Nat
  i_yrot : Nat
  i_zrot : Nat
  i_xshift : Nat
  i_yshift : Nat
  i_zshift : Nat
  min_x : Nat
  min_y : Nat
  min_z : Nat
  max_x : Nat
  max_y : Nat
  max_z : Nat
  opacity : PyVal
  opacity_thick : Nat
  blendfactor : PyVal
deriving DecidableEq

/-- `struct.unpack('f', b)`: requires exactly 4 bytes (else `struct.error`),
and returns a 1-element *tuple* holding the decoded float. -/
def unpack_f (s : List Nat) : Except DecodeError (PyVal × List Nat) :=
  if (s.take 4).length = 4 then .ok (.floatTuple [s.take 4], s.drop 4)
  else .error .StructError

/-- `_read_nts`: the bytes before the first null
(`bytecode.split(null)[0]`). -/
def read_nts (bytecode : List Nat) : List Nat :=
  bytecode.takeWhile (fun b => b ≠ 0)

/-- One iteration of the object loop of `from_file` (source lines 149-200):
the fixed sequence of reads building one `SpatialObject`. -/
def parseObject (s : List Nat) : Except DecodeError (SpatialObject × List Nat) :=
  let (nameB, s) := readBytes 32 s
  let nm := read_nts nameB
  if validUtf8 nm then
    let (display_flag, s) := readU 4 s
    let (copy_flag, s) := readU 1 s
    let (mirror, s) := readU 1 s
    let (status, s) := readU 1 s
    let (n_used, s) := readU 1 s
    let (shades, s) := readU 4 s
    let (s_red, s) := readU 4 s
    let (s_green, s) := readU 4 s
    let (s_blue, s) := readU 4 s
    let (e_red, s) := readU 4 s
    let (e_green, s) := readU 4 s
    let (e_blue, s) := readU 4 s
    let (x_rot, s) := readU 4 s
    let (y_rot, s) := readU 4 s
    let (z_rot, s) := readU 4 s
    let (x_shift, s) := readU 4 s
    let (y_shift, s) := readU 4 s
    let (z_shift, s) := readU 4 s
    let (x_center, s) := readU 4 s
    let (y_center, s) := readU 4 s
    let (z_center, s) := readU 4 s
    let (i_xrot, s) := readU 4 s
    let (i_yrot, s) := readU 4 s
    let (i_zrot, s) := readU 4 s
    let (i_xshift, s) := readU 4 s
    let (i_yshift, s) := readU 4 s
    let (i_zshift, s) := readU 4 s
    let (min_x, s) := readU 2 s
    let (min_y, s) := readU 2 s
    let (min_z, s) := readU 2 s
    let (max_x, s) := readU 2 s
    let (max_y, s) := readU 2 s
    let (max_z, s) := readU 2 s
    match unpack_f s with
    | .error e => .error e
    | .ok (opacity, s) =>
      let (opacity_thick, s) := readU 4 s
      match unpack_f s with
      | .error e => .error e
      | .ok (blendfactor, s) =>
        .ok (⟨nm, display_flag, copy_flag, mirror, status, n_used, shades,
              s_red, s_green, s_blue, e_red, e_green, e_blue,
              x_rot, y_rot, z_rot, x_shift, y_shift, z_shift,
              x_center, y_center, z_center, i_xrot, i_yrot, i_zrot,
              i_xshift, i_yshift, i_zshift, min_x, min_y, min_z,
              max_x, max_y, max_z, opacity, opacity_thick, blendfactor⟩, s)
  else .error .InvalidEncodingError

/-- The object loop `for i in range(self.n_objects)` of `from_file`. -/
def parseObjects : Nat → List Nat → Except DecodeError (List SpatialObject × List Nat)
  | 0, s => .ok ([], s)
  | n + 1, s =>
    match parseObject s with
    | .error e => .error e
    | .ok (o, s') =>
      match parseObjects n s' with
      | .error e => .error e
      | .ok (os, s'') => .ok (o :: os, s'')

/-- `np.frombuffer(f.read(), dtype:uint8).reshape((-1, 2))`, after the evenness
check: the flat byte region as a list of `(run_length, value)` pairs. -/
def toPairs : List Nat → List (Nat × Nat)
  | l :: v :: rest => (l, v) :: toPairs rest
  | _ => []

/-- The numpy slice assignment
`temp_slice[p : p + mult] = np.repeat(v, mult)` on a flat buffer:
overwrite positions `p, ..., p + mult - 1` with `v`. -/
def setRange (l : List Nat) (p mult v : Nat) : List Nat :=
  l.take p ++ List.replicate mult v ++ l.drop (p + mult)

/-- The inner loop `while pixel_num < self.width * self.height` of `from_file`
(source lines 216-221).  `wh = width * height`; the state is the remaining
pair table, the slice buffer and `pixel_num`.  `maps_rle[i]` past the table is
an index error (`EndOfStreamError`); a run that overshoots the slice makes the
numpy broadcast fail (`RunOverflowError`), since the clipped target slice is
then strictly shorter than `np.repeat(num, mult)`. -/
def fillSlice (wh : Nat) : List (Nat × Nat) → List Nat → Nat →
    Except DecodeError (List Nat × List (Nat × Nat))
  | pairs, sl, p =>
    if p < wh then
      match pairs with
      | [] => .error .EndOfStreamError
      | (mult, num) :: rest =>
        if wh < p + mult then .error .RunOverflowError
        else fillSlice wh rest (setRange sl p mult num) (p + mult)
    else .ok (sl, pairs)

/-- `temp_slice.reshape(self.height, self.width)`: cut a flat `h * w` buffer
into `h` rows of `w`. -/
def reshapeRows : Nat → Nat → List Nat → List (List Nat)
  | 0, _, _ => []
  | h + 1, w, l => l.take w :: reshapeRows h w (l.drop w)

/-- One dense voxel volume, slice-major (see the module docstring):
`depth` slices, each `height` rows of `width` cells. -/
abbrev Volume := List (List (List Nat))

/-- The middle loop `while slice_num < self.depth` of `from_file`
(source lines 212-224): decode `d` slices, each freshly zero-initialised
(`np.zeros(width * height)`), reshaped to `(height, width)` and placed at the
next depth index. -/
def decodeSlices (h w : Nat) : Nat → List (Nat × Nat) →
    Except DecodeError (List (List (List Nat)) × List (Nat × Nat))
  | 0, pairs => .ok ([], pairs)
  | d + 1, pairs =>
    match fillSlice (w * h) pairs (List.replicate (w * h) 0) 0 with
    | .error e => .error e
    | .ok (flat, pairs') =>
      match decodeSlices h w d pairs' with
      | .error e => .error e
      | .ok (slices, pairs'') => .ok (reshapeRows h w flat :: slices, pairs'')

/-- The outer loop `for _ in range(self.n_vols)` of `from_file`
(source lines 207-226): decode `n` volumes from a single forward pair cursor. -/
def decodeVols (h w d : Nat) : Nat → List (Nat × Nat) →
    Except DecodeError (List Volume × List (Nat × Nat))
  | 0, pairs => .ok ([], pairs)
  | n + 1, pairs =>
    match decodeSlices h w d pairs with
    | .error e => .error e
    | .ok (slices, pairs') =>
      match decodeVols h w d n pairs' with
      | .error e => .error e
      | .ok (vols, pairs'') => .ok (slices :: vols, pairs'')

/-- The RLE stage of `from_file` (source lines 202-226): the whole remaining
region `s` is reinterpreted as `(run_length, value)` pairs — an odd length
makes `reshape((-1, 2))` raise (`MalformedRLEStreamError`) — and the volumes
are decoded.  Leftover pairs after the last volume are ignored, as in the
source. -/
def decodeMaps (h w d n : Nat) (s : List Nat) : Except DecodeError (List Volume) :=
  if s.length % 2 = 0 then
    match decodeVols h w d n (toPairs s) with
    | .error e => .error e
    | .ok (vols, _) => .ok vols
  else .error .MalformedRLEStreamError

/-- `AnalyzeSpatialMap`: the attributes of the Python class after decoding. -/
structure AnalyzeSpatialMap where
  version_code : Nat
  version : Nat
  width : Nat
  height : Nat
  depth : Nat
  n_objects : Nat
  n_vols : Nat
  objects : List SpatialObject
  vols : List Volume
deriving DecidableEq

/-- The loop `for i in range(header_ints)` of `from_file`: read `n` 4-byte
big-endian unsigned integers. -/
def readHeaderInts : Nat → List Nat → List Nat × List Nat
  | 0, s => ([], s)
  | n + 1, s =>
    let (v, s') := readU 4 s
    let (vs, s'') := readHeaderInts n s'
    (v :: vs, s'')

/-- The header and object-table stages of `from_file` (source lines 124-200),
up to but excluding the RLE stage: returns the partially filled map (with
`vols` still the `__init__` default `[]`) and the unconsumed byte region.
`n_vols` starts at the `__init__` default `1` and is reassigned from
`header[4]` only under the source's guard `if self.version > 7`. -/
def parseHeaderObjects (bs : List Nat) :
    Except DecodeError (AnalyzeSpatialMap × List Nat) :=
  let (version_code, s) := readU 4 bs
  let (version, header_ints) :=
    if version_code < 20050829 then (6, 4) else (7, 5)
  let (header, s) := readHeaderInts header_ints s
  let width := header.getD 0 0
  let height := header.getD 1 0
  let depth := header.getD 2 0
  let n_objects := header.getD 3 0
  let n_vols := if 7 < version then header.getD 4 0 else 1
  match parseObjects n_objects s with
  | .error e => .error e
  | .ok (objs, s') =>
    .ok (⟨version_code, version, width, height, depth, n_objects, n_vols,
          objs, []⟩, s')

/-- `AnalyzeSpatialMap(file=...)`: `__init__` defaults followed by the full
`from_file` pass over the stream's bytes. -/
def from_file (bs : List Nat) : Except DecodeError AnalyzeSpatialMap :=
  match parseHeaderObjects bs with
  | .error e => .error e
  | .ok (m, rest) =>
    match decodeMaps m.height m.width m.depth m.n_vols rest with
    | .error e => .error e
    | .ok vols =>
      .ok ⟨m.version_code, m.version, m.width, m.height, m.depth,
           m.n_objects, m.n_vols, m.objects, vols⟩

/-- `get_data`: `return self.vols[idx]`, with Python list-indexing semantics —
a non-negative index must be below the length, a negative index counts from
the end, and anything else raises `IndexError` (`IndexOutOfRangeError`).
The method reads `self.vols` and assigns nothing, so it is a pure function of
the map. -/
def get_data (m : AnalyzeSpatialMap) (idx : Int) : Except DecodeError Volume :=
  if 0 ≤ idx then
    if idx < (m.vols.length : Int) then .ok (m.vols.getD idx.toNat [])
    else .error .IndexOutOfRangeError
  else
    if -idx ≤ (m.vols.length : Int) then
      .ok (m.vols.getD (m.vols.length - (-idx).toNat) [])
    else .error .IndexOutOfRangeError

/-! ## The RLE encoder of claim C8

Built as the inverse of the decoding scheme of §4.3: collapse a dense volume
slice-by-slice into maximal `(run_length, value)` runs, and flatten the runs
into bytes. -/

/-- Expansion of a run list: `run_length` copies of each value, in order. -/
def expandRuns : List (Nat × Nat) → List Nat
  | [] => []
  | (l, v) :: rest => List.replicate l v ++ expandRuns rest

/-- Collapse a flat buffer into maximal `(run_length, value)` runs. -/
def rleEncode : List Nat → List (Nat × Nat)
  | [] => []
  | v :: rest =>
    match rleEncode rest with
    | (l, w) :: tail =>
      if w = v then (l + 1, v) :: tail else (1, v) :: (l, w) :: tail
    | [] => [(1, v)]

/-- Collapse a dense volume slice-by-slice (each slice flattened row-major,
as the decoder fills it) into one run list. -/
def encodeVolume : Volume → List (Nat × Nat)
  | [] => []
  | sl :: rest => rleEncode sl.flatten ++ encodeVolume rest

/-- Flatten `(run_length, value)` pairs back into the on-disk byte region. -/
def rleBytes : List (Nat × Nat) → List Nat
  | [] => []
  | (l, v) :: rest => l :: v :: rleBytes rest

/-- A version-6 header: `version_code`, then width, height, depth and the
object count, all 4-byte big-endian (used to build concrete input streams). -/
def mkHeader (vc w h d no : Nat) : List Nat :=
  be4 vc ++ be4 w ++ be4 h ++ be4 d ++ be4 no

/-! ## Concrete input streams and their decodings -/

/-- The spec's §8 example stream: version-6 header
`(version_code = 1, width = 2, height = 2, depth = 1, object_count = 0)`
followed by the RLE payload `[4, 7]`. -/
def c5Stream : List Nat := mkHeader 1 2 2 1 0 ++ [4, 7]

/-- What the code decodes `c5Stream` to: one 2×2×1 volume (one depth slice of
two rows of two cells), every cell `7`. -/
def c5Map : AnalyzeSpatialMap :=
  ⟨1, 6, 2, 2, 1, 0, 1, [], [[[[7, 7], [7, 7]]]]⟩

/-- A version-7 stream: `version_code = 20050829`, five header integers
`width = 1, height = 1, depth = 1, object_count = 0` and fifth header integer
(the on-disk volume count) `2`, followed by the RLE payload `[1, 5]`. -/
def c1Stream : List Nat :=
  be4 20050829 ++ be4 1 ++ be4 1 ++ be4 1 ++ be4 0 ++ be4 2 ++ [1, 5]

/-- What the code decodes `c1Stream` to: `version = 7`, but `n_vols` is left
at the `__init__` default `1` — the guard `if self.version > 7` never holds —
so only one volume is decoded although the fifth header integer says `2`. -/
def c1Map : AnalyzeSpatialMap :=
  ⟨20050829, 7, 1, 1, 1, 0, 1, [], [[[[5]]]]⟩

/-- A stream with one object record: version-6 header
`(0, width = 1, height = 1, depth = 1, object_count = 1)`, a 152-byte
all-zero object record, and the RLE payload `[1, 9]`. -/
def c9Stream : List Nat := mkHeader 0 1 1 1 1 ++ List.replicate 152 0 ++ [1, 9]

/-- The object record the code builds from 152 zero bytes: every integer field
`0`, and — because `struct.unpack('f', ...)` returns a 1-element tuple that
lines 196/198 assign unmodified — `opacity` and `blendfactor` are 1-tuples,
not the scalar floats the fields are declared to hold. -/
def c9Obj : SpatialObject :=
  ⟨[], 0, 0, 0, 0, 0, 0, 0, 0, 0, 0, 0, 0, 0, 0, 0, 0, 0, 0, 0, 0, 0, 0, 0, 0,
   0, 0, 0, 0, 0, 0, 0, 0, 0, PyVal.floatTuple [[0, 0, 0, 0]], 0,
   PyVal.floatTuple [[0, 0, 0, 0]]⟩

/-- What the code decodes `c9Stream` to. -/
def c9Map : AnalyzeSpatialMap := ⟨0, 6, 1, 1, 1, 1, 1, [c9Obj], [[[[9]]]]⟩

/-- What the code decodes the *empty* stream to: every header read hits end of
stream, `f.read(4)` returns nothing, `int.from_bytes` of nothing is `0`, and
decoding succeeds with an all-zero header and a single volume of zero slices. -/
def c2Map : AnalyzeSpatialMap := ⟨0, 6, 0, 0, 0, 0, 1, [], [[]]⟩

/-! ## Claims C1, C2, C5, C9: concrete evaluations -/

/-- C1 (code bug): the claim says a stream with `version_code ≥ 20050829` gets
`version = 7`, five header integers, and `volume_count` taken from the fifth
header integer.  The code does set `version = 7` and read five header
integers, but the reassignment of `n_vols` is guarded by `if self.version > 7`,
which can never hold (`version` is 6 or 7), so `n_vols` stays at the
`__init__` default `1`: on `c1Stream`, whose fifth header integer is `2`, the
decode succeeds with `version = 7` but `n_vols = 1` and a single decoded
volume. -/
theorem c1_fifth_header_int_ignored :
    from_file c1Stream = .ok c1Map ∧
      fromBytesBE ((c1Stream.drop 20).take 4) = 2 ∧
      c1Map.version = 7 ∧ c1Map.n_vols = 1 ∧ c1Map.vols.length = 1 :=
  ⟨rfl, rfl, rfl, rfl, rfl⟩

/-- C2 (code bug): the claim says a stream that ends before a fixed-width
field completes fails with `TruncatedInputError`.  The code has no such check:
`f.read(n)` silently returns the bytes that are left and `int.from_bytes`
accepts any length, so on the empty stream — which ends before the very first
fixed-width field, `version_code` — decoding *succeeds* and returns a complete
map with an all-zero header and one volume of zero slices. -/
theorem c2_truncated_stream_decodes : from_file [] = .ok c2Map := rfl

/-- C5 (confirmed): the stream with header `(version_code = 1, width = 2,
height = 2, depth = 1, object_count = 0)` and RLE payload `[4, 7]` decodes to
exactly one volume of shape 2×2×1 (one depth slice of two rows of two cells)
in which every cell equals `7`. -/
theorem c5_example_stream_decodes : from_file c5Stream = .ok c5Map := rfl

/-- C9 (code bug): the claim (and the field declarations of `SpatialObject`
itself, `self.opacity = 0.0  # float32`) say `opacity` and `blendfactor` are
scalar 32-bit floats decoded from their 4-byte fields.  But
`struct.unpack('f', f.read(4))` returns a 1-element *tuple*, and lines 196 and
198 assign it without taking `[0]`: on `c9Stream` the decoded object's
`opacity` and `blendfactor` are the 1-tuples `floatTuple [[0,0,0,0]]`, not
scalar floats (`PyVal.float`). -/
theorem c9_opacity_is_tuple_not_scalar :
    from_file c9Stream = .ok c9Map ∧
      c9Obj.opacity = PyVal.floatTuple [[0, 0, 0, 0]] ∧
      c9Obj.blendfactor = PyVal.floatTuple [[0, 0, 0, 0]] ∧
      (∀ bits, c9Obj.opacity ≠ PyVal.float bits) :=
  ⟨rfl, rfl, rfl, fun _ h => PyVal.noConfusion h⟩

/-! ## Helper lemmas: header parsing of constructed streams -/

theorem fromBytesBE_be4 (n : Nat) (h : n < 4294967296) : fromBytesBE (be4 n) = n := by
  simp [fromBytesBE, be4, List.foldl]
  omega

theorem parseHeaderObjects_mkHeader (w h d : Nat) (r : List Nat)
    (hw : w < 4294967296) (hh : h < 4294967296) (hd : d < 4294967296) :
    parseHeaderObjects (mkHeader 0 w h d 0 ++ r) =
      .ok (⟨0, 6, w, h, d, 0, 1, [], []⟩, r) := by
  have e1 : parseHeaderObjects (mkHeader 0 w h d 0 ++ r) =
      .ok (⟨0, 6, fromBytesBE (be4 w), fromBytesBE (be4 h), fromBytesBE (be4 d),
            0, 1, [], []⟩, r) := rfl
  rw [e1, fromBytesBE_be4 w hw, fromBytesBE_be4 h hh, fromBytesBE_be4 d hd]

theorem from_file_mkHeader (w h d : Nat) (r : List Nat)
    (hw : w < 4294967296) (hh : h < 4294967296) (hd : d < 4294967296) :
    from_file (mkHeader 0 w h d 0 ++ r) =
      match decodeMaps h w d 1 r with
      | .error e => .error e
      | .ok vols => .ok ⟨0, 6, w, h, d, 0, 1, [], vols⟩ := by
  unfold from_file
  rw [parseHeaderObjects_mkHeader w h d r hw hh hd]

/-! ## Helper lemmas: the RLE byte region -/

theorem rleBytes_length (ps : List (Nat × Nat)) : (rleBytes ps).length = 2 * ps.length := by
  induction ps with
  | nil => rfl
  | cons p rest ih => cases p; simp [rleBytes, ih]; ring

theorem toPairs_rleBytes (ps : List (Nat × Nat)) : toPairs (rleBytes ps) = ps := by
  induction ps with
  | nil => rfl
  | cons p rest ih => cases p; simp [rleBytes, toPairs, ih]

/-- The raise site of `RunOverflowError`: at any decoder state with remaining
slice capacity (`p < wh`), a head run longer than that capacity makes the
numpy broadcast fail. -/
theorem fillSlice_overflow (wh p mult num : Nat) (rest : List (Nat × Nat))
    (sl : List Nat) (hp : p < wh) (hm : wh - p < mult) :
    fillSlice wh ((mult, num) :: rest) sl p = .error .RunOverflowError := by
  unfold fillSlice
  rw [if_pos hp]
  exact if_pos (by omega)

/-- The raise site of `MalformedRLEStreamError`: `reshape((-1, 2))` on an
odd-length region. -/
theorem decodeMaps_odd (h w d n : Nat) (s : List Nat) (hodd : s.length % 2 = 1) :
    decodeMaps h w d n s = .error .MalformedRLEStreamError := by
  unfold decodeMaps
  rw [if_neg (by omega)]

/-! ## Claims C3 and C4 -/

/-- C3 (confirmed): a run whose length exceeds the remaining unfilled capacity
of the current slice always fails the decode with `RunOverflowError` — the
first conjunct covers *every* reachable slice state (`p` cells filled,
capacity `wh - p` left); the second shows the failure end to end through
`from_file` for every stream whose first run overshoots its `width × height`
slice (the spec's own example is `width = 2, height = 2`, first run length 5),
so the run is never truncated or wrapped into a next slice: no map is
produced at all. -/
theorem c3_run_overflow_fails :
    (∀ wh p mult num (rest : List (Nat × Nat)) (sl : List Nat),
        p < wh → wh - p < mult →
        fillSlice wh ((mult, num) :: rest) sl p = .error .RunOverflowError) ∧
    (∀ w h mult num (ps : List (Nat × Nat)),
        w < 4294967296 → h < 4294967296 → 0 < w * h → w * h < mult →
        from_file (mkHeader 0 w h 1 0 ++ (mult :: num :: rleBytes ps)) =
          .error .RunOverflowError) := by
  constructor
  · exact fun wh p mult num rest sl hp hm => fillSlice_overflow wh p mult num rest sl hp hm
  · intro w h mult num ps hw hh hwh hm
    rw [from_file_mkHeader w h 1 (mult :: num :: rleBytes ps) hw hh (by norm_num)]
    have heven : (mult :: num :: rleBytes ps).length % 2 = 0 := by
      simp [rleBytes_length]
      omega
    have hfill : fillSlice (w * h) ((mult, num) :: toPairs (rleBytes ps))
        (List.replicate (w * h) 0) 0 = .error .RunOverflowError :=
      fillSlice_overflow (w * h) 0 mult num _ _ hwh (by omega)
    simp only [decodeMaps, heven, if_true, toPairs, decodeVols, decodeSlices, hfill]

/-- C4 (confirmed): an odd-length byte region remaining after the object table
always fails the decode with `MalformedRLEStreamError` — the first conjunct is
the RLE stage of `from_file` on *any* remaining region of odd length (for any
grid and volume count), the second shows it end to end through `from_file` for
every stream whose post-object-table region has odd length. -/
theorem c4_odd_rle_region_fails :
    (∀ h w d n (s : List Nat), s.length % 2 = 1 →
        decodeMaps h w d n s = .error .MalformedRLEStreamError) ∧
    (∀ w h d (s : List Nat),
        w < 4294967296 → h < 4294967296 → d < 4294967296 → s.length % 2 = 1 →
        from_file (mkHeader 0 w h d 0 ++ s) = .error .MalformedRLEStreamError) := by
  constructor
  · exact fun h w d n s hodd => decodeMaps_odd h w d n s hodd
  · intro w h d s hw hh hd hodd
    rw [from_file_mkHeader w h d s hw hh hd, decodeMaps_odd h w d 1 s hodd]

/-- Witness for C3 at the spec's example: `width = 2, height = 2`, first run
of length 5. -/
theorem c3_run_overflow_fails_witness :
    fillSlice 4 [(5, 7)] (List.replicate 4 0) 0 = .error .RunOverflowError ∧
      from_file (mkHeader 0 2 2 1 0 ++ (5 :: 7 :: rleBytes [])) =
        .error .RunOverflowError :=
  ⟨c3_run_overflow_fails.1 4 0 5 7 [] (List.replicate 4 0) (by norm_num) (by norm_num),
   c3_run_overflow_fails.2 2 2 5 7 [] (by norm_num) (by norm_num) (by norm_num)
     (by norm_num)⟩

/-- Witness for C4 at a 1-byte RLE region. -/
theorem c4_odd_rle_region_fails_witness :
    decodeMaps 2 2 1 1 [5] = .error .MalformedRLEStreamError ∧
      from_file (mkHeader 0 2 2 1 0 ++ [5]) = .error .MalformedRLEStreamError :=
  ⟨c4_odd_rle_region_fails.1 2 2 1 1 [5] (by norm_num),
   c4_odd_rle_region_fails.2 2 2 1 [5] (by norm_num) (by norm_num) (by norm_num)
     (by norm_num)⟩

/-! ## Helper lemmas: what a successful slice fill produces -/

theorem setRange_length (l : List Nat) (p m v : Nat) (h : p + m ≤ l.length) :
    (setRange l p m v).length = l.length := by
  simp [setRange]
  omega

theorem setRange_take (l : List Nat) (p m v : Nat) (h : p + m ≤ l.length) :
    (setRange l p m v).take (p + m) = l.take p ++ List.replicate m v := by
  have h1 : (l.take p).length = p := by simp; omega
  simp [setRange, List.take_append_eq_append_take, h1, List.take_take,
    List.take_replicate, Nat.min_def]

theorem expandRuns_cons (l v : Nat) (c : List (Nat × Nat)) :
    expandRuns ((l, v) :: c) = List.replicate l v ++ expandRuns c := rfl

theorem fillSlice_nil (wh : Nat) (sl : List Nat) (p : Nat) :
    fillSlice wh [] sl p =
      if p < wh then .error .EndOfStreamError else .ok (sl, []) := by
  conv_lhs => unfold fillSlice

theorem fillSlice_cons (wh mult num : Nat) (ps : List (Nat × Nat))
    (sl : List Nat) (p : Nat) :
    fillSlice wh ((mult, num) :: ps) sl p =
      if p < wh then
        if wh < p + mult then .error .RunOverflowError
        else fillSlice wh ps (setRange sl p mult num) (p + mult)
      else .ok (sl, (mult, num) :: ps) := by
  conv_lhs => unfold fillSlice

/-- Characterisation of a successful run of the inner pixel loop: it consumes
an initial segment `c` of the pair table whose expansion exactly fills the
slice from position `p` up to capacity `wh`, and overwrites that region of the
buffer with the expansion. -/
theorem fillSlice_ok_char (wh : Nat) (pairs : List (Nat × Nat)) :
    ∀ (sl : List Nat) (p : Nat) (out : List Nat) (rest : List (Nat × Nat)),
      sl.length = wh → p ≤ wh → fillSlice wh pairs sl p = .ok (out, rest) →
      ∃ c, pairs = c ++ rest ∧ out = sl.take p ++ expandRuns c ∧
        p + (expandRuns c).length = wh := by
  induction pairs with
  | nil =>
    intro sl p out rest hsl hp hok
    rw [fillSlice_nil] at hok
    by_cases hlt : p < wh
    · rw [if_pos hlt] at hok
      exact absurd hok (by simp)
    · rw [if_neg hlt] at hok
      injection Except.ok.inj hok with h1 h2
      subst h1; subst h2
      have hpe : p = wh := by omega
      refine ⟨[], by simp, ?_, by simp [expandRuns, hpe]⟩
      rw [hpe, ← hsl, List.take_length]
      simp [expandRuns]
  | cons pr ps ih =>
    obtain ⟨mult, num⟩ := pr
    intro sl p out rest hsl hp hok
    rw [fillSlice_cons] at hok
    by_cases hlt : p < wh
    · rw [if_pos hlt] at hok
      by_cases hov : wh < p + mult
      · rw [if_pos hov] at hok
        exact absurd hok (by simp)
      · rw [if_neg hov] at hok
        have hle : p + mult ≤ sl.length := by omega
        obtain ⟨c', hps, hout, hlen⟩ :=
          ih (setRange sl p mult num) (p + mult) out rest
            (by rw [setRange_length sl p mult num hle, hsl]) (by omega) hok
        refine ⟨(mult, num) :: c', by simp [hps], ?_, ?_⟩
        · rw [hout, setRange_take sl p mult num hle, expandRuns_cons,
            List.append_assoc]
        · rw [expandRuns_cons]
          simp only [List.length_append, List.length_replicate]
          omega
    · rw [if_neg hlt] at hok
      injection Except.ok.inj hok with h1 h2
      subst h1; subst h2
      have hpe : p = wh := by omega
      refine ⟨[], by simp, ?_, by simp [expandRuns, hpe]⟩
      rw [hpe, ← hsl, List.take_length]
      simp [expandRuns]

/-- Specialisation to the decoder's actual call: a fresh zero slice filled
from position 0 is exactly the expansion of the consumed pairs, of length
`wh`. -/
theorem fillSlice_ok_zero (wh : Nat) (pairs : List (Nat × Nat))
    (out : List Nat) (rest : List (Nat × Nat))
    (hok : fillSlice wh pairs (List.replicate wh 0) 0 = .ok (out, rest)) :
    ∃ c, pairs = c ++ rest ∧ out = expandRuns c ∧ out.length = wh := by
  obtain ⟨c, hc, hout, hlen⟩ :=
    fillSlice_ok_char wh pairs (List.replicate wh 0) 0 out rest (by simp)
      (Nat.zero_le wh) hok
  exact ⟨c, hc, by simpa using hout, by simp [hout] at hlen ⊢; simpa using hlen⟩

/-- Every expanded cell is the value byte of one of the consumed pairs. -/
theorem mem_expandRuns {x : Nat} {c : List (Nat × Nat)} (hx : x ∈ expandRuns c) :
    x ∈ c.map Prod.snd := by
  induction c with
  | nil => simp [expandRuns] at hx
  | cons pr rest ih =>
    obtain ⟨l, v⟩ := pr
    rw [expandRuns_cons, List.mem_append] at hx
    rcases hx with hx | hx
    · simp [List.eq_of_mem_replicate hx]
    · simpa using Or.inr (ih hx)

/-! ## Helper lemmas: reshape and the decoding loops -/

theorem reshapeRows_length (h w : Nat) : ∀ l : List Nat, (reshapeRows h w l).length = h := by
  induction h with
  | zero => intro l; rfl
  | succ h ih => intro l; simp [reshapeRows, ih]

theorem reshapeRows_row_length (h w : Nat) :
    ∀ l : List Nat, h * w ≤ l.length → ∀ row ∈ reshapeRows h w l, row.length = w := by
  induction h with
  | zero => intro l _ row hr; simp [reshapeRows] at hr
  | succ h ih =>
    intro l hl row hr
    rw [Nat.succ_mul] at hl
    simp only [reshapeRows, List.mem_cons] at hr
    rcases hr with rfl | hr
    · simp
      omega
    · exact ih (l.drop w) (by simp; omega) row hr

theorem reshapeRows_mem (h w : Nat) :
    ∀ (l : List Nat) (row : List Nat), row ∈ reshapeRows h w l →
      ∀ x ∈ row, x ∈ l := by
  induction h with
  | zero => intro l row hr; simp [reshapeRows] at hr
  | succ h ih =>
    intro l row hr x hx
    simp only [reshapeRows, List.mem_cons] at hr
    rcases hr with rfl | hr
    · exact List.take_subset w l hx
    · exact List.drop_subset w l (ih (l.drop w) row hr x hx)

/-- Success analysis of the slice loop: a successful pass over `d` slices
consumes an initial segment of the pair table and yields `d` slices, each of
`h` rows of `w` cells, every cell a value byte of the table. -/
theorem decodeSlices_ok (h w : Nat) :
    ∀ (d : Nat) (pairs : List (Nat × Nat)) (slices : List (List (List Nat)))
      (rest : List (Nat × Nat)),
      decodeSlices h w d pairs = .ok (slices, rest) →
      slices.length = d ∧ (∃ c, pairs = c ++ rest) ∧
        ∀ sl ∈ slices, sl.length = h ∧ (∀ row ∈ sl, row.length = w) ∧
          (∀ row ∈ sl, ∀ x ∈ row, x ∈ pairs.map Prod.snd) := by
  intro d
  induction d with
  | zero =>
    intro pairs slices rest hok
    unfold decodeSlices at hok
    injection Except.ok.inj hok with h1 h2
    subst h1; subst h2
    exact ⟨rfl, ⟨[], rfl⟩, by simp⟩
  | succ d ih =>
    intro pairs slices rest hok
    unfold decodeSlices at hok
    cases hfill : fillSlice (w * h) pairs (List.replicate (w * h) 0) 0 with
    | error e => rw [hfill] at hok; exact absurd hok (by simp)
    | ok pr =>
      obtain ⟨flat, pairs₁⟩ := pr
      rw [hfill] at hok
      dsimp only at hok
      cases hdec : decodeSlices h w d pairs₁ with
      | error e => rw [hdec] at hok; exact absurd hok (by simp)
      | ok pr₂ =>
        obtain ⟨slices', rest'⟩ := pr₂
        rw [hdec] at hok
        dsimp only at hok
        injection Except.ok.inj hok with h1 h2
        subst h1; subst h2
        obtain ⟨c₁, hc₁, hflat, hflen⟩ := fillSlice_ok_zero (w * h) pairs flat pairs₁ hfill
        obtain ⟨hlen', ⟨c₂, hc₂⟩, hprops⟩ := ih pairs₁ slices' rest' hdec
        have hsub₁ : ∀ x ∈ pairs₁.map Prod.snd, x ∈ pairs.map Prod.snd := by
          intro x hx
          rw [hc₁, List.map_append, List.mem_append]
          exact Or.inr hx
        refine ⟨by simp [hlen'], ⟨c₁ ++ c₂, by rw [hc₁, hc₂, List.append_assoc]⟩, ?_⟩
        intro sl hsl
        simp only [List.mem_cons] at hsl
        rcases hsl with rfl | hsl
        · refine ⟨reshapeRows_length h w flat, ?_, ?_⟩
          · exact reshapeRows_row_length h w flat (by rw [hflen]; exact Nat.le_of_eq (Nat.mul_comm h w))
          · intro row hrow x hx
            have hxf : x ∈ flat := reshapeRows_mem h w flat row hrow x hx
            rw [hflat] at hxf
            have := mem_expandRuns hxf
            rw [hc₁, List.map_append, List.mem_append]
            exact Or.inl this
        · obtain ⟨ha, hb, hcp⟩ := hprops sl hsl
          exact ⟨ha, hb, fun row hrow x hx => hsub₁ x (hcp row hrow x hx)⟩

/-- Success analysis of the volume loop: `n` volumes are produced, each of `d`
slices of `h` rows of `w` cells, every cell a value byte of the pair table. -/
theorem decodeVols_ok (h w d : Nat) :
    ∀ (n : Nat) (pairs : List (Nat × Nat)) (vols : List Volume)
      (rest : List (Nat × Nat)),
      decodeVols h w d n pairs = .ok (vols, rest) →
      vols.length = n ∧
        ∀ v ∈ vols, v.length = d ∧
          ∀ sl ∈ v, sl.length = h ∧ (∀ row ∈ sl, row.length = w) ∧
            (∀ row ∈ sl, ∀ x ∈ row, x ∈ pairs.map Prod.snd) := by
  intro n
  induction n with
  | zero =>
    intro pairs vols rest hok
    unfold decodeVols at hok
    injection Except.ok.inj hok with h1 h2
    subst h1; subst h2
    exact ⟨rfl, by simp⟩
  | succ n ih =>
    intro pairs vols rest hok
    unfold decodeVols at hok
    cases hsl : decodeSlices h w d pairs with
    | error e => rw [hsl] at hok; exact absurd hok (by simp)
    | ok pr =>
      obtain ⟨slices, pairs₁⟩ := pr
      rw [hsl] at hok
      dsimp only at hok
      cases hvs : decodeVols h w d n pairs₁ with
      | error e => rw [hvs] at hok; exact absurd hok (by simp)
      | ok pr₂ =>
        obtain ⟨vols', rest'⟩ := pr₂
        rw [hvs] at hok
        dsimp only at hok
        injection Except.ok.inj hok with h1 h2
        subst h1; subst h2
        obtain ⟨hd₁, ⟨c₁, hc₁⟩, hprops₁⟩ := decodeSlices_ok h w d pairs slices pairs₁ hsl
        obtain ⟨hn', hprops'⟩ := ih pairs₁ vols' rest' hvs
        have hsub₁ : ∀ x ∈ pairs₁.map Prod.snd, x ∈ pairs.map Prod.snd := by
          intro x hx
          rw [hc₁, List.map_append, List.mem_append]
          exact Or.inr hx
        refine ⟨by simp [hn'], ?_⟩
        intro v hv
        simp only [List.mem_cons] at hv
        rcases hv with rfl | hv
        · exact ⟨hd₁, hprops₁⟩
        · obtain ⟨hvd, hrest⟩ := hprops' v hv
          exact ⟨hvd, fun sl hsl' =>
            ⟨(hrest sl hsl').1, (hrest sl hsl').2.1,
             fun row hrow x hx => hsub₁ x ((hrest sl hsl').2.2 row hrow x hx)⟩⟩

/-- Success analysis of the whole RLE stage. -/
theorem decodeMaps_ok (h w d n : Nat) (s : List Nat) (vols : List Volume)
    (hok : decodeMaps h w d n s = .ok vols) :
    vols.length = n ∧
      ∀ v ∈ vols, v.length = d ∧
        ∀ sl ∈ v, sl.length = h ∧ (∀ row ∈ sl, row.length = w) ∧
          (∀ row ∈ sl, ∀ x ∈ row, x ∈ (toPairs s).map Prod.snd) := by
  unfold decodeMaps at hok
  by_cases he : s.length % 2 = 0
  · rw [if_pos he] at hok
    cases hvs : decodeVols h w d n (toPairs s) with
    | error e => rw [hvs] at hok; exact absurd hok (by simp)
    | ok pr =>
      obtain ⟨vols', rest'⟩ := pr
      rw [hvs] at hok
      injection hok with h1
      subst h1
      exact decodeVols_ok h w d n (toPairs s) vols' rest' hvs
  · rw [if_neg he] at hok
    exact absurd hok (by simp)

/-! ## Helper lemmas: successful decodes and `get_data` -/

/-- A successful `from_file` splits into a successful header/object stage and
a successful RLE stage, and the map's scalar fields are the header stage's. -/
theorem from_file_ok (bs : List Nat) (m : AnalyzeSpatialMap)
    (hok : from_file bs = .ok m) :
    ∃ m₀ rest, parseHeaderObjects bs = .ok (m₀, rest) ∧
      decodeMaps m₀.height m₀.width m₀.depth m₀.n_vols rest = .ok m.vols ∧
      m.height = m₀.height ∧ m.width = m₀.width ∧ m.depth = m₀.depth ∧
      m.n_vols = m₀.n_vols := by
  unfold from_file at hok
  cases hp : parseHeaderObjects bs with
  | error e => rw [hp] at hok; exact absurd hok (by simp)
  | ok pr =>
    obtain ⟨m₀, rest⟩ := pr
    rw [hp] at hok
    dsimp only at hok
    cases hdm : decodeMaps m₀.height m₀.width m₀.depth m₀.n_vols rest with
    | error e => rw [hdm] at hok; exact absurd hok (by simp)
    | ok vols =>
      rw [hdm] at hok
      dsimp only at hok
      injection hok with h1
      subst h1
      exact ⟨m₀, rest, rfl, hdm, rfl, rfl, rfl, rfl⟩

/-- After a successful decode the volume list has exactly `n_vols` entries. -/
theorem from_file_vols_length (bs : List Nat) (m : AnalyzeSpatialMap)
    (hok : from_file bs = .ok m) : m.vols.length = m.n_vols := by
  obtain ⟨m₀, rest, _, hdm, _, _, _, hnv⟩ := from_file_ok bs m hok
  rw [hnv]
  exact (decodeMaps_ok m₀.height m₀.width m₀.depth m₀.n_vols rest m.vols hdm).1

/-- `self.vols[i]` at a valid non-negative index. -/
theorem get_data_nat (m : AnalyzeSpatialMap) (i : Nat) (h : i < m.vols.length) :
    get_data m (i : Int) = .ok (m.vols.getD i []) := by
  unfold get_data
  rw [if_pos (by exact_mod_cast Int.ofNat_nonneg i),
    if_pos (by exact_mod_cast h)]
  simp

/-! ## Claims C7 and C10 -/

/-- C7 (confirmed): on every decoded map, `get_data` at any index that is at
least `volume_count` fails with `IndexOutOfRangeError` (`self.vols[idx]`
raises `IndexError`: after a successful decode `len(self.vols) = n_vols`, so
`idx ≥ n_vols` is out of range).  `get_data` reads `self.vols` and assigns
nothing — in the embedding it is a pure function of the map — so the failed
call leaves the map's header fields, objects and volumes unchanged. -/
theorem c7_get_data_out_of_range (bs : List Nat) (m : AnalyzeSpatialMap)
    (hok : from_file bs = .ok m) (idx : Int) (hge : (m.n_vols : Int) ≤ idx) :
    get_data m idx = .error .IndexOutOfRangeError := by
  have hlen : m.vols.length = m.n_vols := from_file_vols_length bs m hok
  unfold get_data
  rw [if_pos (le_trans (by exact_mod_cast Nat.zero_le m.n_vols) hge),
    if_neg (by rw [hlen]; omega)]

/-- Witness for C7: the decoded map of the spec's §8 example stream, queried
at index 5 ≥ 1 = its volume count. -/
theorem c7_get_data_out_of_range_witness :
    get_data c5Map 5 = .error .IndexOutOfRangeError :=
  c7_get_data_out_of_range c5Stream c5Map rfl 5 (by norm_num [c5Map])

/-- C10 (confirmed): on every decoded map, `get_data` at a *negative* index
`-k` with `1 ≤ k ≤ volume_count` does not fail: Python list indexing resolves
`self.vols[-k]` to `self.vols[len(self.vols) - k]`, i.e. the volume at
position `volume_count - k` from the start. -/
theorem c10_get_data_negative_index (bs : List Nat) (m : AnalyzeSpatialMap)
    (hok : from_file bs = .ok m) (k : Nat) (h1 : 1 ≤ k) (h2 : k ≤ m.n_vols) :
    get_data m (-(k : Int)) = .ok (m.vols.getD (m.n_vols - k) []) := by
  have hlen : m.vols.length = m.n_vols := from_file_vols_length bs m hok
  unfold get_data
  rw [if_neg (by omega), if_pos (by rw [hlen]; omega)]
  congr 1
  rw [hlen]
  congr 1
  omega

/-- Witness for C10: on the decoded map of the spec's §8 example stream,
`get_data(-1)` returns the volume at position `volume_count - 1 = 0`. -/
theorem c10_get_data_negative_index_witness :
    get_data c5Map (-(1 : Int)) = .ok (c5Map.vols.getD (c5Map.n_vols - 1) []) :=
  c10_get_data_negative_index c5Stream c5Map rfl 1 (by norm_num)
    (by norm_num [c5Map])

/-- A value byte of the pair table is a byte of the region it was cut from. -/
theorem toPairs_snd_subset :
    ∀ (s : List Nat) (x : Nat), x ∈ (toPairs s).map Prod.snd → x ∈ s
  | a :: b :: r, x, hx => by
    simp only [toPairs, List.map_cons, List.mem_cons] at hx
    rcases hx with rfl | hx
    · simp
    · simp only [List.mem_cons]
      exact Or.inr (Or.inr (toPairs_snd_subset r x hx))
  | [], x, hx => by simp [toPairs] at hx
  | [a], x, hx => by simp [toPairs] at hx

/-! ## Claim C6 -/

/-- C6 (confirmed): on every input on which the decode succeeds, `get_data(i)`
for `0 ≤ i < volume_count` returns a volume of shape exactly
`(height, width, depth)` — here: `depth` slices, each of `height` rows of
`width` cells, the slice-major rendering of `np.zeros((height, width, depth))`
— and every cell of it is one of the RLE value bytes of the stream: `rest` is
the byte region the header/object stages left over (as `parseHeaderObjects`
returns it), every cell is the value byte (second component) of one of its
`(run_length, value)` pairs, and hence, whenever that region consists of
bytes, every cell lies in [0, 255]. -/
theorem c6_decoded_volume_shape_and_values (bs : List Nat)
    (m : AnalyzeSpatialMap) (hok : from_file bs = .ok m) (i : Nat)
    (hi : i < m.n_vols) :
    ∃ m₀ rest v,
      parseHeaderObjects bs = .ok (m₀, rest) ∧
      get_data m (i : Int) = .ok v ∧
      v.length = m.depth ∧
      (∀ sl ∈ v, sl.length = m.height ∧ ∀ row ∈ sl, row.length = m.width) ∧
      (∀ sl ∈ v, ∀ row ∈ sl, ∀ x ∈ row, x ∈ (toPairs rest).map Prod.snd) ∧
      ((∀ b ∈ rest, b ≤ 255) → ∀ sl ∈ v, ∀ row ∈ sl, ∀ x ∈ row, x ≤ 255) := by
  obtain ⟨m₀, rest, hph, hdm, hh, hw, hd, hnv⟩ := from_file_ok bs m hok
  obtain ⟨hlen, hvols⟩ :=
    decodeMaps_ok m₀.height m₀.width m₀.depth m₀.n_vols rest m.vols hdm
  have hivs : i < m.vols.length := by rw [hlen, ← hnv]; exact hi
  have hget : get_data m (i : Int) = .ok (m.vols.getD i []) := get_data_nat m i hivs
  have hmem : m.vols.getD i [] ∈ m.vols := by
    rw [List.getD_eq_getElem m.vols [] hivs]
    exact List.getElem_mem hivs
  obtain ⟨hvd, hvprops⟩ := hvols _ hmem
  refine ⟨m₀, rest, m.vols.getD i [], hph, hget, by rw [hvd, hd], ?_, ?_, ?_⟩
  · intro sl hsl
    obtain ⟨h1, h2, _⟩ := hvprops sl hsl
    refine ⟨by rw [h1, hh], fun row hrow => by rw [h2 row hrow, hw]⟩
  · intro sl hsl row hrow x hx
    exact (hvprops sl hsl).2.2 row hrow x hx
  · intro hb sl hsl row hrow x hx
    exact hb x (toPairs_snd_subset rest x ((hvprops sl hsl).2.2 row hrow x hx))

/-- Witness for C6: the spec's §8 example stream, volume index 0. -/
theorem c6_decoded_volume_shape_and_values_witness :
    ∃ m₀ rest v,
      parseHeaderObjects c5Stream = .ok (m₀, rest) ∧
      get_data c5Map ((0 : Nat) : Int) = .ok v ∧
      v.length = c5Map.depth ∧
      (∀ sl ∈ v, sl.length = c5Map.height ∧ ∀ row ∈ sl, row.length = c5Map.width) ∧
      (∀ sl ∈ v, ∀ row ∈ sl, ∀ x ∈ row, x ∈ (toPairs rest).map Prod.snd) ∧
      ((∀ b ∈ rest, b ≤ 255) → ∀ sl ∈ v, ∀ row ∈ sl, ∀ x ∈ row, x ≤ 255) :=
  c6_decoded_volume_shape_and_values c5Stream c5Map rfl 0 (by norm_num [c5Map])

/-! ## Helper lemmas: the round trip of claim C8 -/

theorem fillSlice_stop (wh : Nat) (pairs : List (Nat × Nat)) (sl : List Nat)
    (p : Nat) (h : ¬p < wh) : fillSlice wh pairs sl p = .ok (sl, pairs) := by
  cases pairs with
  | nil => rw [fillSlice_nil, if_neg h]
  | cons pr ps =>
    obtain ⟨mult, num⟩ := pr
    rw [fillSlice_cons, if_neg h]

/-- The pixel loop consumes a run list whose expansion exactly fills the
remaining capacity, and leaves the rest of the pair table untouched. -/
theorem fillSlice_exact (wh : Nat) :
    ∀ (R rest : List (Nat × Nat)) (sl : List Nat) (p : Nat),
      sl.length = wh → p + (expandRuns R).length = wh → (∀ pr ∈ R, 0 < pr.1) →
      fillSlice wh (R ++ rest) sl p = .ok (sl.take p ++ expandRuns R, rest) := by
  intro R
  induction R with
  | nil =>
    intro rest sl p hsl hp _
    simp only [expandRuns, List.length_nil, Nat.add_zero] at hp
    rw [List.nil_append, fillSlice_stop wh rest sl p (by omega)]
    rw [hp, ← hsl, List.take_length]
    simp [expandRuns]
  | cons pr R' ih =>
    obtain ⟨mult, num⟩ := pr
    intro rest sl p hsl hp hpos
    have hm : 0 < mult := hpos (mult, num) (List.mem_cons_self _ _)
    rw [expandRuns_cons, List.length_append, List.length_replicate] at hp
    have hlt : p < wh := by omega
    have hle : p + mult ≤ sl.length := by omega
    rw [List.cons_append, fillSlice_cons, if_pos hlt, if_neg (by omega),
      ih rest (setRange sl p mult num) (p + mult)
        (by rw [setRange_length sl p mult num hle, hsl]) (by omega)
        (fun q hq => hpos q (List.mem_cons_of_mem _ hq))]
    rw [setRange_take sl p mult num hle, expandRuns_cons, List.append_assoc]

theorem expandRuns_rleEncode (l : List Nat) : expandRuns (rleEncode l) = l := by
  induction l with
  | nil => rfl
  | cons v rest ih =>
    unfold rleEncode
    cases hr : rleEncode rest with
    | nil =>
      rw [hr] at ih
      simp only [expandRuns] at ih
      simp [expandRuns, ← ih]
    | cons pr tail =>
      obtain ⟨L, W⟩ := pr
      rw [hr] at ih
      dsimp only
      by_cases hw : W = v
      · subst hw
        rw [if_pos rfl, ← ih, expandRuns_cons, expandRuns_cons]
        simp [List.replicate_succ]
      · rw [if_neg hw, ← ih, expandRuns_cons]
        simp

theorem rleEncode_pos (l : List Nat) : ∀ pr ∈ rleEncode l, 0 < pr.1 := by
  induction l with
  | nil => simp [rleEncode]
  | cons v rest ih =>
    unfold rleEncode
    cases hr : rleEncode rest with
    | nil => simp
    | cons pr tail =>
      obtain ⟨L, W⟩ := pr
      rw [hr] at ih
      dsimp only
      by_cases hw : W = v
      · rw [if_pos hw]
        intro q hq
        rcases List.mem_cons.1 hq with rfl | hq
        · simp
        · exact ih q (List.mem_cons_of_mem _ hq)
      · rw [if_neg hw]
        intro q hq
        rcases List.mem_cons.1 hq with rfl | hq
        · simp
        · exact ih q hq

theorem flatten_length_uniform (w : Nat) :
    ∀ sl : List (List Nat), (∀ row ∈ sl, row.length = w) →
      sl.flatten.length = sl.length * w := by
  intro sl
  induction sl with
  | nil => intro _; simp
  | cons r rs ih =>
    intro hrow
    have hr : r.length = w := hrow r (List.mem_cons_self _ _)
    simp only [List.flatten_cons, List.length_append, List.length_cons,
      ih (fun q hq => hrow q (List.mem_cons_of_mem _ hq)), hr, Nat.succ_mul]
    omega

theorem reshapeRows_flatten (w : Nat) :
    ∀ sl : List (List Nat), (∀ row ∈ sl, row.length = w) →
      reshapeRows sl.length w sl.flatten = sl := by
  intro sl
  induction sl with
  | nil => intro _; rfl
  | cons r rs ih =>
    intro hrow
    have hr : r.length = w := hrow r (List.mem_cons_self _ _)
    show reshapeRows (rs.length + 1) w (r :: rs).flatten = r :: rs
    unfold reshapeRows
    rw [List.flatten_cons, List.take_left' hr, List.drop_left' hr,
      ih (fun q hq => hrow q (List.mem_cons_of_mem _ hq))]

theorem decodeSlices_zero (h w : Nat) (pairs : List (Nat × Nat)) :
    decodeSlices h w 0 pairs = .ok ([], pairs) := rfl

theorem decodeSlices_succ (h w d : Nat) (pairs : List (Nat × Nat)) :
    decodeSlices h w (d + 1) pairs =
      match fillSlice (w * h) pairs (List.replicate (w * h) 0) 0 with
      | .error e => .error e
      | .ok (flat, pairs') =>
        match decodeSlices h w d pairs' with
        | .error e => .error e
        | .ok (slices, pairs'') => .ok (reshapeRows h w flat :: slices, pairs'') := by
  conv_lhs => unfold decodeSlices

theorem decodeVols_one (h w d : Nat) (pairs : List (Nat × Nat)) :
    decodeVols h w d 1 pairs =
      match decodeSlices h w d pairs with
      | .error e => .error e
      | .ok (slices, pairs') =>
        match decodeVols h w d 0 pairs' with
        | .error e => .error e
        | .ok (vols, pairs'') => .ok (slices :: vols, pairs'') := by
  conv_lhs => unfold decodeVols

/-- Decoding the slice-by-slice encoding of a well-shaped volume gives the
volume back, consuming exactly the encoding. -/
theorem decodeSlices_encodeVolume (h w : Nat) :
    ∀ (V : Volume) (rest : List (Nat × Nat)),
      (∀ sl ∈ V, sl.length = h ∧ ∀ row ∈ sl, row.length = w) →
      decodeSlices h w V.length (encodeVolume V ++ rest) = .ok (V, rest) := by
  intro V
  induction V with
  | nil => intro rest _; rfl
  | cons sl V' ih =>
    intro rest hshape
    obtain ⟨hslh, hslw⟩ := hshape sl (List.mem_cons_self _ _)
    have hfill : fillSlice (w * h) (encodeVolume (sl :: V') ++ rest)
        (List.replicate (w * h) 0) 0 =
        .ok (sl.flatten, encodeVolume V' ++ rest) := by
      have hexp : (expandRuns (rleEncode sl.flatten)).length = w * h := by
        rw [expandRuns_rleEncode, flatten_length_uniform w sl hslw, hslh,
          Nat.mul_comm]
      have := fillSlice_exact (w * h) (rleEncode sl.flatten)
        (encodeVolume V' ++ rest) (List.replicate (w * h) 0) 0 (by simp)
        (by omega) (rleEncode_pos sl.flatten)
      rw [List.take_zero, List.nil_append, expandRuns_rleEncode] at this
      rw [show encodeVolume (sl :: V') ++ rest =
        rleEncode sl.flatten ++ (encodeVolume V' ++ rest) by
          simp [encodeVolume, List.append_assoc]]
      exact this
    show decodeSlices h w (V'.length + 1) _ = _
    rw [decodeSlices_succ, hfill]
    dsimp only
    rw [ih rest (fun q hq => hshape q (List.mem_cons_of_mem _ hq))]
    dsimp only
    rw [← hslh, reshapeRows_flatten w sl hslw]

/-! ## Claim C8 -/

/-- C8 (confirmed): round trip.  For every dense volume `V` (of any shape
`(height, width, depth) = (h, w, d)`, with `d` slices of `h` rows of `w`
cells) whose slice-by-slice collapse into `(run_length, value)` runs — the
inverse of the decoding scheme, built by `encodeVolume` as maximal runs over
each slice flattened row-major — has every run length at most 255, decoding
the encoded stream (here: through the full `from_file`, behind a version-6
header carrying `V`'s dimensions and no objects) succeeds and reproduces
exactly the original dense volume. -/
theorem c8_encode_decode_roundtrip (w h d : Nat) (V : Volume)
    (hw : w < 4294967296) (hh : h < 4294967296) (hd : d < 4294967296)
    (hlen : V.length = d)
    (hshape : ∀ sl ∈ V, sl.length = h ∧ ∀ row ∈ sl, row.length = w)
    (hruns : ∀ sl ∈ V, ∀ pr ∈ rleEncode sl.flatten, pr.1 ≤ 255) :
    from_file (mkHeader 0 w h d 0 ++ rleBytes (encodeVolume V)) =
      .ok ⟨0, 6, w, h, d, 0, 1, [], [V]⟩ := by
  rw [from_file_mkHeader w h d _ hw hh hd]
  have hmaps : decodeMaps h w d 1 (rleBytes (encodeVolume V)) = .ok [V] := by
    unfold decodeMaps
    rw [if_pos (by rw [rleBytes_length]; omega), toPairs_rleBytes,
      decodeVols_one]
    have hds : decodeSlices h w d (encodeVolume V) = .ok (V, []) := by
      have := decodeSlices_encodeVolume h w V [] hshape
      rw [List.append_nil, hlen] at this
      exact this
    rw [hds]
    rfl
  rw [hmaps]

/-- Witness for C8: the 2×2×1 volume whose cells are all 7; its encoding is
the single run `(4, 7)` and the round trip reproduces it. -/
theorem c8_encode_decode_roundtrip_witness :
    from_file (mkHeader 0 2 2 1 0 ++ rleBytes (encodeVolume [[[7, 7], [7, 7]]])) =
      .ok ⟨0, 6, 2, 2, 1, 0, 1, [], [[[[7, 7], [7, 7]]]]⟩ :=
  c8_encode_decode_roundtrip 2 2 1 [[[7, 7], [7, 7]]] (by norm_num) (by norm_num)
    (by norm_num) rfl (by decide) (by decide)

end ObjParser
